import Mathlib

/-!
Shallow embedding of `stock-dis.py`: a batch tool that computes, for each
holding-period length, the distribution of realized growth ratios of an asset
price series, and for underperforming purchases searches forward for the time
needed to catch up with a compounding CPI benchmark.

Prices and ratios are modelled as rationals; Python list indexing that can
raise `IndexError` is modelled with `List.getElem?`; indexing that is always
in range in the pipeline is modelled with `List.getD`.
-/

/-- Python slice `l[:-t]`.  For `t = 0` Python yields the empty list
(`l[:0]`); for `t ≥ 1` it yields the first `len(l) - t` elements. -/
def dropLastPy (l : List ℚ) (t : ℕ) : List ℚ :=
  if t = 0 then [] else l.take (l.length - t)

/-- Loop body of `asset_growth` (source lines 58-62): walks the purchase
prices, pairing index `i` (the enumerate counter) with the sale price at
`i + t`. -/
def assetGrowthGo (prices_over_time : List ℚ) (t : ℕ) : ℕ → List ℚ → List ℚ
  | _, [] => []
  | i, purchase_price :: rest =>
      (prices_over_time.getD (i + t) 0 / purchase_price) ::
        assetGrowthGo prices_over_time t (i + 1) rest

/-- `asset_growth(prices_over_time, t)` (source lines 46-62): all growth
ratios `prices_over_time[i+t] / prices_over_time[i]` for purchase indices
ranging over `enumerate(prices_over_time[:-t])`. -/
def asset_growth (prices_over_time : List ℚ) (t : ℕ) : List ℚ :=
  assetGrowthGo prices_over_time t 0 (dropLastPy prices_over_time t)

/-- `compound(principal, rate, num_compound, time)` (source lines 65-75):
`principal * (1 + rate/num_compound) ** (num_compound*time)`. -/
def compound (principal rate : ℚ) (num_compound time : ℕ) : ℚ :=
  principal * (1 + rate / (num_compound : ℚ)) ^ (num_compound * time)

/-- The benchmark multiplier as `main` builds it (source line 206):
`compound(1, rate_percent/100, 1, periods)`, annual compounding with
frequency fixed at 1. -/
def benchmark_multiplier (rate_percent : ℚ) (periods : ℕ) : ℚ :=
  compound 1 (rate_percent / 100) 1 periods

/-- Outcome of the forward recovery walk for one underperforming purchase:
the extra time (in years) is appended to `recover_times` (constructor
`recovered`) or to `non_recovery` (constructor `notRecovered`). -/
inductive Outcome where
  | recovered (extra_years : ℚ)
  | notRecovered (extra_years : ℚ)
  deriving DecidableEq, Repr

/-- Inner loop of `time_to_catch_up_cpi` (source lines 137-157): walk the
remaining prices month by month (the enumerate counter `m` starts at 1).
State: `g` is the running comparison ratio (`growth_ratio` in the source,
mutated to each strictly larger forward ratio), `rm` is `recovery_months`
(0 until the first improvement).  On an improvement at month `m` the future
CPI is looked up at `price_idx[ti + 1 + m / 12]` (integer division); a missing
entry (Python `IndexError`) or benchmark clearance ends the walk. -/
def catchUpWalk (price_idx : List ℚ) (ti : ℕ) (p : ℚ) :
    ℚ → ℕ → ℕ → List ℚ → Outcome
  | _, rm, _, [] => Outcome.notRecovered ((rm : ℚ) / 12)
  | g, rm, m, rest_value :: rest =>
      if rest_value / p > g then
        match price_idx[ti + 1 + m / 12]? with
        | none => Outcome.notRecovered ((m : ℚ) / 12)
        | some future_cpi =>
            if rest_value / p ≥ future_cpi then Outcome.recovered ((m : ℚ) / 12)
            else catchUpWalk price_idx ti p (rest_value / p) m (m + 1) rest
      else catchUpWalk price_idx ti p g rm (m + 1) rest

/-- The forward walk for one underperforming purchase (source lines 133-157):
purchase price `asset_prices[purchase_idx]`, walk over
`asset_prices[purchase_idx + 12*ti:]` with `recovery_months = 0` and the
month counter starting at 1. -/
def purchaseOutcome (price_idx asset_prices : List ℚ) (ti idx : ℕ) (g : ℚ) :
    Outcome :=
  catchUpWalk price_idx ti (asset_prices.getD idx 0) g 0 1
    (asset_prices.drop (idx + 12 * ti))

/-- The per-interval loop over `enumerate(growth_ratios)` (source lines
131-157): only purchases with `growth_ratio < cpi` are searched, each
contributing exactly one outcome, in purchase order. -/
def intervalOutcomes (price_idx asset_prices : List ℚ) (ti : ℕ) (cpi : ℚ) :
    ℕ → List ℚ → List Outcome
  | _, [] => []
  | i, g :: grs =>
      if g < cpi then
        purchaseOutcome price_idx asset_prices ti i g ::
          intervalOutcomes price_idx asset_prices ti cpi (i + 1) grs
      else intervalOutcomes price_idx asset_prices ti cpi (i + 1) grs

/-- Extra-times of the outcomes that go to `recover_times`, in order. -/
def recoveredOf (os : List Outcome) : List ℚ :=
  os.filterMap fun o =>
    match o with
    | Outcome.recovered t => some t
    | Outcome.notRecovered _ => none

/-- Extra-times of the outcomes that go to `non_recovery`, in order. -/
def nonRecoveredOf (os : List Outcome) : List ℚ :=
  os.filterMap fun o =>
    match o with
    | Outcome.recovered _ => none
    | Outcome.notRecovered t => some t

/-- Outer loop of `time_to_catch_up_cpi` (source line 128):
`enumerate(zip(ratios_over_time, price_idx), start=1)`, appending one bucket
per time interval to each of the two results. -/
def catchUpBuckets (price_idx asset_prices : List ℚ) :
    ℕ → List (List ℚ × ℚ) → List (List ℚ) × List (List ℚ)
  | _, [] => ([], [])
  | ti, gc :: rest =>
      let os := intervalOutcomes price_idx asset_prices ti gc.2 0 gc.1
      let r := catchUpBuckets price_idx asset_prices (ti + 1) rest
      (recoveredOf os :: r.1, nonRecoveredOf os :: r.2)

/-- `time_to_catch_up_cpi(ratios_over_time, price_idx, asset_prices)`
(source lines 109-158). -/
def time_to_catch_up_cpi (ratios_over_time : List (List ℚ))
    (price_idx asset_prices : List ℚ) : List (List ℚ) × List (List ℚ) :=
  catchUpBuckets price_idx asset_prices 1 (ratios_over_time.zip price_idx)

/-- Python `range(a, b)`. -/
def pyRange (a b : ℕ) : List ℕ :=
  List.range' a (b - a)

/-- The holding-period lengths (in years) that `main` analyzes (source line
204): `range(1, min(opts.num_years, len(asset_prices)//12))`. -/
def analyzedYears (num_years series_len : ℕ) : List ℕ :=
  pyRange 1 (min num_years (series_len / 12))

/-- The `ratios_over_time` list that `main` builds (source line 205). -/
def mainRatios (asset_prices : List ℚ) (num_years : ℕ) : List (List ℚ) :=
  (analyzedYears num_years asset_prices.length).map
    (fun n => asset_growth asset_prices (12 * n))

/-- The `price_idx` list that `main` builds (source line 206). -/
def mainPriceIdx (cpi : ℚ) (asset_prices : List ℚ) (num_years : ℕ) : List ℚ :=
  (analyzedYears num_years asset_prices.length).map
    (fun n => compound 1 (cpi / 100) 1 n)

/-- Loop body of `fetch_data` (source lines 35-42).  State: collected prices,
`min_date` (initialized to the empty string), and `max_date`, which in the
source is only ever assigned inside the well-formed branch and is therefore
modelled as an `Option` that starts out `none`.  The float conversion
`float(line_values[-2].replace(',', ''))` is modelled by the abstract
`parseFloat` parameter. -/
def fetchFold (parseFloat : String → ℚ) :
    List ℚ × String × Option String → String → List ℚ × String × Option String
  | (prices, min_date, max_date), line =>
      let line_values := line.trim.splitOn "\t"
      if 2 < line_values.length then
        (prices ++ [parseFloat ((line_values.getD (line_values.length - 2) "").replace "," "")],
         if min_date = "" then line_values.getD 0 "" else min_date,
         some (line_values.getD 0 ""))
      else (prices, min_date, max_date)

/-- `fetch_data` (source lines 18-43) on the list of input lines: process
`readlines()[-drop_points-1::-1]`, i.e. the lines with the last `drop_points`
removed, in reverse order.  Returning `max_date` when it was never assigned
is Python's `UnboundLocalError`, modelled as the error case. -/
def fetch_data (parseFloat : String → ℚ) (lines : List String)
    (drop_points : ℕ) : Except String (List ℚ × String × String) :=
  let processed := (lines.take (lines.length - drop_points)).reverse
  let r := processed.foldl (fetchFold parseFloat) ([], "", none)
  match r.2.2 with
  | none => Except.error "UnboundLocalError: max_date"
  | some max_date => Except.ok (r.1, r.2.1, max_date)

/-- State of the forward walk after processing a prefix of the remaining
prices, when no break occurred on that prefix: the running comparison ratio,
`recovery_months`, and the month counter.  Mirrors `catchUpWalk` exactly,
returning `none` as soon as the walk would stop (benchmark cleared or CPI
lookup out of range). -/
def walkStateAfter (price_idx : List ℚ) (ti : ℕ) (p : ℚ) :
    ℚ → ℕ → ℕ → List ℚ → Option (ℚ × ℕ × ℕ)
  | g, rm, m, [] => some (g, rm, m)
  | g, rm, m, rest_value :: rest =>
      if rest_value / p > g then
        match price_idx[ti + 1 + m / 12]? with
        | none => none
        | some future_cpi =>
            if rest_value / p ≥ future_cpi then none
            else walkStateAfter price_idx ti p (rest_value / p) m (m + 1) rest
      else walkStateAfter price_idx ti p g rm (m + 1) rest

/-! ### Helper lemmas -/

theorem assetGrowthGo_length (P : List ℚ) (t : ℕ) (l : List ℚ) :
    ∀ s, (assetGrowthGo P t s l).length = l.length := by
  induction l with
  | nil => intro s; rfl
  | cons p rest ih => intro s; simp [assetGrowthGo, ih]

theorem assetGrowthGo_getElem? (P : List ℚ) (t : ℕ) (l : List ℚ) :
    ∀ s i, (assetGrowthGo P t s l)[i]? =
      (l[i]?).map (fun p => P.getD (s + i + t) 0 / p) := by
  induction l with
  | nil => intro s i; simp [assetGrowthGo]
  | cons p rest ih =>
    intro s i
    cases i with
    | zero => simp [assetGrowthGo]
    | succ j =>
      simp only [assetGrowthGo, List.getElem?_cons_succ, ih (s + 1) j]
      have h : s + 1 + j + t = s + (j + 1) + t := by omega
      rw [h]

theorem catchUpBuckets_fst_getElem? (pidx ap : List ℚ) (zs : List (List ℚ × ℚ)) :
    ∀ s k, (catchUpBuckets pidx ap s zs).1[k]? =
      (zs[k]?).map (fun gc => recoveredOf (intervalOutcomes pidx ap (s + k) gc.2 0 gc.1)) := by
  induction zs with
  | nil => intro s k; simp [catchUpBuckets]
  | cons gc rest ih =>
    intro s k
    cases k with
    | zero => simp [catchUpBuckets]
    | succ j =>
      simp only [catchUpBuckets, List.getElem?_cons_succ, ih (s + 1) j]
      have h : s + 1 + j = s + (j + 1) := by omega
      rw [h]

theorem catchUpBuckets_snd_getElem? (pidx ap : List ℚ) (zs : List (List ℚ × ℚ)) :
    ∀ s k, (catchUpBuckets pidx ap s zs).2[k]? =
      (zs[k]?).map (fun gc => nonRecoveredOf (intervalOutcomes pidx ap (s + k) gc.2 0 gc.1)) := by
  induction zs with
  | nil => intro s k; simp [catchUpBuckets]
  | cons gc rest ih =>
    intro s k
    cases k with
    | zero => simp [catchUpBuckets]
    | succ j =>
      simp only [catchUpBuckets, List.getElem?_cons_succ, ih (s + 1) j]
      have h : s + 1 + j = s + (j + 1) := by omega
      rw [h]

theorem intervalOutcomes_of_no_under (pidx ap : List ℚ) (ti : ℕ) (cpi : ℚ)
    (grs : List ℚ) (h : ∀ r ∈ grs, ¬ r < cpi) :
    ∀ i, intervalOutcomes pidx ap ti cpi i grs = [] := by
  induction grs with
  | nil => intro i; rfl
  | cons g grs ih =>
    intro i
    simp only [intervalOutcomes]
    rw [if_neg (h g (List.mem_cons_self g grs))]
    exact ih (fun r hr => h r (List.mem_cons_of_mem g hr)) (i + 1)

theorem intervalOutcomes_length (pidx ap : List ℚ) (ti : ℕ) (cpi : ℚ)
    (grs : List ℚ) :
    ∀ i, (intervalOutcomes pidx ap ti cpi i grs).length =
      (grs.filter (fun r => decide (r < cpi))).length := by
  induction grs with
  | nil => intro i; rfl
  | cons g grs ih =>
    intro i
    simp only [intervalOutcomes, List.filter_cons]
    by_cases hg : g < cpi
    · rw [if_pos hg]
      simp [hg, ih (i + 1)]
    · rw [if_neg hg]
      simp [hg, ih (i + 1)]

theorem recovered_add_nonRecovered_length (os : List Outcome) :
    (recoveredOf os).length + (nonRecoveredOf os).length = os.length := by
  induction os with
  | nil => rfl
  | cons o os ih =>
    cases o with
    | recovered t =>
      simp only [recoveredOf, nonRecoveredOf, List.filterMap_cons] at ih ⊢
      simp only [List.length_cons]
      omega
    | notRecovered t =>
      simp only [recoveredOf, nonRecoveredOf, List.filterMap_cons] at ih ⊢
      simp only [List.length_cons]
      omega

theorem purchaseOutcome_mem_intervalOutcomes (pidx ap : List ℚ) (ti : ℕ)
    (cpi : ℚ) (grs : List ℚ) :
    ∀ i j g, grs[j]? = some g → g < cpi →
      purchaseOutcome pidx ap ti (i + j) g ∈ intervalOutcomes pidx ap ti cpi i grs := by
  induction grs with
  | nil => intro i j g hj _; simp at hj
  | cons g0 grs ih =>
    intro i j g hj hg
    cases j with
    | zero =>
      simp only [List.getElem?_cons_zero, Option.some.injEq] at hj
      subst hj
      simp only [intervalOutcomes]
      rw [if_pos hg]
      simp
    | succ j =>
      simp only [List.getElem?_cons_succ] at hj
      have hmem := ih (i + 1) j g hj hg
      have harith : i + 1 + j = i + (j + 1) := by omega
      rw [harith] at hmem
      simp only [intervalOutcomes]
      by_cases h0 : g0 < cpi
      · rw [if_pos h0]
        exact List.mem_cons_of_mem _ hmem
      · rw [if_neg h0]
        exact hmem

theorem catchUpWalk_no_improve (pidx : List ℚ) (ti : ℕ) (p g : ℚ)
    (rest : List ℚ) (h : ∀ x ∈ rest, ¬ x / p > g) :
    ∀ m, catchUpWalk pidx ti p g 0 m rest = Outcome.notRecovered 0 := by
  induction rest with
  | nil => intro m; simp [catchUpWalk]
  | cons x rest ih =>
    intro m
    simp only [catchUpWalk]
    rw [if_neg (h x (List.mem_cons_self x rest))]
    exact ih (fun y hy => h y (List.mem_cons_of_mem x hy)) (m + 1)

theorem fetchFold_skip (pf : String → ℚ) (ls : List String)
    (h : ∀ l ∈ ls, (l.trim.splitOn "\t").length ≤ 2) :
    ∀ acc, ls.foldl (fetchFold pf) acc = acc := by
  induction ls with
  | nil => intro acc; rfl
  | cons l ls ih =>
    intro acc
    obtain ⟨a, b, c⟩ := acc
    have h1 : ¬ (2 < (l.trim.splitOn "\t").length) := by
      have := h l (List.mem_cons_self l ls)
      omega
    rw [List.foldl_cons]
    have hstep : fetchFold pf (a, b, c) l = (a, b, c) := by
      simp only [fetchFold]
      rw [if_neg h1]
    rw [hstep]
    exact ih (fun x hx => h x (List.mem_cons_of_mem l hx)) (a, b, c)

/-! ### Claims -/

/-- Claim C4: for every `T ≥ 1` and series of length `L`, `asset_growth`
(the `compute_ratios` of the spec) returns exactly `max(0, L - T)` values
(here `L - T` in truncated natural subtraction), and its `i`-th value is
`series[i+T] / series[i]` for every valid `i`, in ascending purchase-index
order. -/
theorem C4_compute_ratios (series : List ℚ) (T : ℕ) (hT : 1 ≤ T) :
    (asset_growth series T).length = series.length - T ∧
    ∀ i, i < series.length - T →
      (asset_growth series T)[i]? =
        some (series.getD (i + T) 0 / series.getD i 0) := by
  have hT0 : T ≠ 0 := by omega
  constructor
  · rw [asset_growth, assetGrowthGo_length, dropLastPy, if_neg hT0,
      List.length_take]
    omega
  · intro i hi
    rw [asset_growth, assetGrowthGo_getElem?, dropLastPy, if_neg hT0,
      List.getElem?_take_of_lt hi]
    have hiL : i < series.length := by omega
    rw [List.getElem?_eq_getElem hiL]
    simp [List.getD_eq_getElem?_getD, List.getElem?_eq_getElem hiL]

theorem C4_compute_ratios_witness :
    (asset_growth [100, 110, 121, 1331/10] 1).length = 3 ∧
    (asset_growth [100, 110, 121, 1331/10] 1)[1]? = some ((121 : ℚ) / 110) := by
  have h := C4_compute_ratios [100, 110, 121, 1331/10] 1 (by norm_num)
  refine ⟨by simpa using h.1, ?_⟩
  have h2 := h.2 1 (by norm_num)
  simpa using h2

/-- Claim C6: `benchmark_multiplier(rate_percent, periods)` equals
`(1 + rate_percent/100)^periods`; for `rate_percent > 0` it is strictly
increasing in `periods`; for `rate_percent = 0` it equals 1 for all
periods. -/
theorem C6_benchmark (r : ℚ) (N : ℕ) :
    benchmark_multiplier r N = (1 + r / 100) ^ N ∧
    (0 < r → ∀ m n : ℕ, m < n →
      benchmark_multiplier r m < benchmark_multiplier r n) ∧
    (r = 0 → benchmark_multiplier r N = 1) := by
  have key : ∀ k : ℕ, benchmark_multiplier r k = (1 + r / 100) ^ k := by
    intro k
    simp [benchmark_multiplier, compound]
  refine ⟨key N, ?_, ?_⟩
  · intro hr m n hmn
    rw [key m, key n]
    apply pow_lt_pow_right₀ _ hmn
    have h100 : 0 < r / 100 := by positivity
    linarith
  · intro hr
    rw [key N, hr]
    norm_num

theorem C6_benchmark_witness :
    benchmark_multiplier 2 1 < benchmark_multiplier 2 3 :=
  (C6_benchmark 2 1).2.1 (by norm_num) 1 3 (by norm_num)

/-- Claim C5, counterexample: with `num_years = 2` and a series of 36 monthly
prices, `min(num_years, series_length/12) = 2`, so the claim predicts that
holding-period length 2 is analyzed; the code's `range(1, min(...))` excludes
the upper bound and analyzes only length 1. -/
theorem C5_counterexample :
    min 2 (36 / 12) = 2 ∧ analyzedYears 2 36 = [1] ∧
    ¬ ((2 : ℕ) ∈ analyzedYears 2 36) := by
  refine ⟨by norm_num, by simp [analyzedYears, pyRange], ?_⟩
  simp [analyzedYears, pyRange, List.mem_range'_1]

/-- Claim C5 (amended): the analyzed holding-period lengths are the integers
`T` with `1 ≤ T` and `T + 1 ≤ min(num_years, series_length/12)` — that is,
`1 .. min(num_years, series_length/12) - 1` inclusive, the upper endpoint
`min(num_years, series_length/12)` itself being excluded — and `main`
produces exactly one ratio set and one benchmark value per such `T`. -/
theorem C5_analyzed_range (ap : List ℚ) (cpi : ℚ) (ny : ℕ) :
    (mainRatios ap ny).length = min ny (ap.length / 12) - 1 ∧
    (mainPriceIdx cpi ap ny).length = min ny (ap.length / 12) - 1 ∧
    ∀ T, T ∈ analyzedYears ny ap.length ↔
      1 ≤ T ∧ T + 1 ≤ min ny (ap.length / 12) := by
  refine ⟨by simp [mainRatios, analyzedYears, pyRange],
          by simp [mainPriceIdx, analyzedYears, pyRange], ?_⟩
  intro T
  simp only [analyzedYears, pyRange, List.mem_range'_1]
  omega

/-- Claim C10: when no processed line of the input yields a well-formed
record (all processed lines split into fewer than 3 tab-separated fields; in
particular when `drop_points` leaves no lines at all), `fetch_data` fails
with the unbound-`max_date` error instead of returning an empty series. -/
theorem C10_fetch_unbound (pf : String → ℚ) (lines : List String) (d : ℕ)
    (h : ∀ l ∈ lines.take (lines.length - d),
      (l.trim.splitOn "\t").length ≤ 2) :
    fetch_data pf lines d = Except.error "UnboundLocalError: max_date" := by
  have hfold := fetchFold_skip pf ((lines.take (lines.length - d)).reverse)
    (fun l hl => h l (List.mem_reverse.mp hl)) ([], "", none)
  simp only [fetch_data, hfold]

theorem C10_fetch_unbound_witness :
    fetch_data (fun _ => 0) ["x"] 2 =
      Except.error "UnboundLocalError: max_date" := by
  apply C10_fetch_unbound
  intro l hl
  simp at hl

/-- Claim C1, counterexample: the claim says the future benchmark is at index
`time_interval + m/12` of the benchmark sequence.  Take `time_interval = 1`,
benchmarks `[2, 1]`, a flat price series with a jump to 10 at forward month
`m = 1`: the purchase ratio 1 underperforms its benchmark 2; at `m = 1` the
improved ratio `10/1` clears the benchmark at the claim's index
`1 + 1/12 = 1` (value 1), so the claim predicts a Recovered outcome; the code
looks up index `time_interval + 1 + m/12 = 2`, which is out of range, and
records NotRecovered with extra-time `1/12`. -/
theorem C1_counterexample :
    (([2, 1] : List ℚ)[1 + 1 / 12]? = some 1) ∧
    ((10 : ℚ) / 1 ≥ 1) ∧
    time_to_catch_up_cpi [[1]] [2, 1] [1, 1, 1, 1, 1, 1, 1, 1, 1, 1, 1, 1, 10] =
      ([[]], [[1 / 12]]) := by
  refine ⟨rfl, by norm_num, ?_⟩
  simp [time_to_catch_up_cpi, catchUpBuckets, intervalOutcomes, purchaseOutcome,
    catchUpWalk, recoveredOf, nonRecoveredOf]

/-- Claim C1 (amended): in the recovery search, at every forward month `m` at
which a strict improvement occurs, the future benchmark to clear is the one
at index `time_interval + 1 + m/12` (integer-divided) of the benchmark
sequence; when that benchmark exists, the walk records Recovered with
extra-time `m/12` exactly when the improved ratio is `≥` that benchmark
value, and otherwise continues. -/
theorem C1_forward_benchmark (price_idx : List ℚ) (ti : ℕ) (p g : ℚ)
    (rm m : ℕ) (x : ℚ) (rest : List ℚ) (b : ℚ)
    (himp : x / p > g) (hb : price_idx[ti + 1 + m / 12]? = some b) :
    catchUpWalk price_idx ti p g rm m (x :: rest) =
      if x / p ≥ b then Outcome.recovered ((m : ℚ) / 12)
      else catchUpWalk price_idx ti p (x / p) m (m + 1) rest := by
  simp only [catchUpWalk]
  rw [if_pos himp, hb]

theorem C1_forward_benchmark_witness :
    catchUpWalk [2, 2, 2] 1 1 1 0 1 [3] = Outcome.recovered (1 / 12) := by
  have h := C1_forward_benchmark [2, 2, 2] 1 1 1 0 1 3 [] 2 (by norm_num) (by rfl)
  rw [h, if_pos (by norm_num)]
  norm_num

/-- Claim C2: during the forward walk the comparison ratio is the best ratio
seen so far.  If the walk survives a prefix of the remaining prices without
stopping (state `some (g', rm', m')`), then `g'` is the maximum of the
original growth ratio and all forward ratios of the prefix — every strictly
larger forward ratio updated it, including improvements that failed to clear
the future benchmark — and the walk continues on the rest of the prices
comparing against `g'`, never against the original ratio again. -/
theorem C2_ratchet (price_idx : List ℚ) (ti : ℕ) (p g : ℚ) (rm m : ℕ)
    (pre rest : List ℚ) (g' : ℚ) (rm' m' : ℕ)
    (h : walkStateAfter price_idx ti p g rm m pre = some (g', rm', m')) :
    g' = (pre.map (fun x => x / p)).foldl max g ∧
    catchUpWalk price_idx ti p g rm m (pre ++ rest) =
      catchUpWalk price_idx ti p g' rm' m' rest := by
  induction pre generalizing g rm m with
  | nil =>
    simp only [walkStateAfter, Option.some.injEq, Prod.mk.injEq] at h
    obtain ⟨h1, h2, h3⟩ := h
    subst h1; subst h2; subst h3
    simp
  | cons x pre ih =>
    simp only [walkStateAfter] at h
    by_cases himp : x / p > g
    · rw [if_pos himp] at h
      cases hb : price_idx[ti + 1 + m / 12]? with
      | none =>
        simp only [hb] at h
        simp at h
      | some b =>
        simp only [hb] at h
        by_cases hge : x / p ≥ b
        · rw [if_pos hge] at h
          simp at h
        · rw [if_neg hge] at h
          obtain ⟨hg', hwalk⟩ := ih (x / p) m (m + 1) h
          constructor
          · rw [hg']
            simp only [List.map_cons, List.foldl_cons]
            rw [max_eq_right (le_of_lt himp)]
          · rw [List.cons_append]
            simp only [catchUpWalk]
            rw [if_pos himp, hb]
            show (if x / p ≥ b then Outcome.recovered ((m : ℚ) / 12)
              else catchUpWalk price_idx ti p (x / p) m (m + 1) (pre ++ rest)) =
              catchUpWalk price_idx ti p g' rm' m' rest
            rw [if_neg hge]
            exact hwalk
    · rw [if_neg himp] at h
      obtain ⟨hg', hwalk⟩ := ih g rm (m + 1) h
      constructor
      · rw [hg']
        simp only [List.map_cons, List.foldl_cons]
        rw [max_eq_left (not_lt.mp himp)]
      · rw [List.cons_append]
        simp only [catchUpWalk]
        rw [if_neg himp]
        exact hwalk

theorem C2_ratchet_witness :
    ((3 : ℚ) / 2 = ([(3 : ℚ) / 2].map (fun x => x / 1)).foldl max 1) ∧
    catchUpWalk [2, 2, 2, 2] 1 1 1 0 1 ([3 / 2] ++ [5]) =
      catchUpWalk [2, 2, 2, 2] 1 1 (3 / 2) 1 2 [5] := by
  apply C2_ratchet
  show walkStateAfter [2, 2, 2, 2] 1 1 1 0 1 [3 / 2] = some (3 / 2, 1, 2)
  simp [walkStateAfter]
  norm_num

/-- Claim C3, counterexample: an underperforming purchase whose forward walk
(two remaining months, both with ratio 1, not a strict improvement over the
original ratio 1) never improves.  The claim predicts a NotRecovered outcome
with extra-time equal to the full remaining length in years, `2/12`; the code
appends `recovery_months/12` with `recovery_months` still 0, i.e. 0. -/
theorem C3_counterexample :
    (([1, 1, 1, 1, 1, 1, 1, 1, 1, 1, 1, 1, 1, 1] : List ℚ).drop (0 + 12 * 1)).length = 2 ∧
    (time_to_catch_up_cpi [[1]] [2] [1, 1, 1, 1, 1, 1, 1, 1, 1, 1, 1, 1, 1, 1]).2 =
      [[0]] ∧ (0 : ℚ) ≠ 2 / 12 := by
  refine ⟨by simp, ?_, by norm_num⟩
  simp [time_to_catch_up_cpi, catchUpBuckets, intervalOutcomes, purchaseOutcome,
    catchUpWalk, recoveredOf, nonRecoveredOf]

/-- Claim C3 (amended): for every underperforming purchase whose forward walk
exhausts all remaining future prices without a single strict improvement over
the original growth ratio, the walk produces a NotRecovered outcome with
extra-time 0 (`recovery_months` is never assigned and stays 0), and that
outcome is recorded in the purchase's interval bucket. -/
theorem C3_no_improvement (pidx ap : List ℚ) (ti idx : ℕ) (g : ℚ)
    (grs : List ℚ) (cpi : ℚ)
    (h : ∀ x ∈ ap.drop (idx + 12 * ti), ¬ x / ap.getD idx 0 > g)
    (hg : grs[idx]? = some g) (hunder : g < cpi) :
    purchaseOutcome pidx ap ti idx g = Outcome.notRecovered 0 ∧
    Outcome.notRecovered 0 ∈ intervalOutcomes pidx ap ti cpi 0 grs := by
  have hpo : purchaseOutcome pidx ap ti idx g = Outcome.notRecovered 0 := by
    rw [purchaseOutcome]
    exact catchUpWalk_no_improve pidx ti (ap.getD idx 0) g _ h 1
  refine ⟨hpo, ?_⟩
  have hmem := purchaseOutcome_mem_intervalOutcomes pidx ap ti cpi grs 0 idx g hg hunder
  rw [Nat.zero_add] at hmem
  rw [hpo] at hmem
  exact hmem

theorem C3_no_improvement_witness :
    purchaseOutcome [2] [1, 1, 1, 1, 1, 1, 1, 1, 1, 1, 1, 1, 1, 1] 1 0 1 =
      Outcome.notRecovered 0 ∧
    Outcome.notRecovered 0 ∈
      intervalOutcomes [2] [1, 1, 1, 1, 1, 1, 1, 1, 1, 1, 1, 1, 1, 1] 1 2 0 [1] := by
  apply C3_no_improvement
  · intro x hx
    simp at hx
    subst hx
    norm_num
  · rfl
  · norm_num

/-- Claim C7: for any holding-period-length index whose ratio set contains no
ratio strictly below its aligned benchmark, `time_to_catch_up_cpi` produces
an entry at that index in both outputs, and both buckets are empty. -/
theorem C7_all_above (rot : List (List ℚ)) (pidx ap : List ℚ) (k : ℕ)
    (grs : List ℚ) (cpi : ℚ)
    (hk : (rot.zip pidx)[k]? = some (grs, cpi))
    (h : ∀ r ∈ grs, ¬ r < cpi) :
    (time_to_catch_up_cpi rot pidx ap).1[k]? = some [] ∧
    (time_to_catch_up_cpi rot pidx ap).2[k]? = some [] := by
  have hnil := intervalOutcomes_of_no_under pidx ap (1 + k) cpi grs h 0
  constructor
  · rw [time_to_catch_up_cpi, catchUpBuckets_fst_getElem?, hk]
    simp [hnil, recoveredOf]
  · rw [time_to_catch_up_cpi, catchUpBuckets_snd_getElem?, hk]
    simp [hnil, nonRecoveredOf]

theorem C7_all_above_witness :
    (time_to_catch_up_cpi [[3]] [2] [1]).1[0]? = some [] ∧
    (time_to_catch_up_cpi [[3]] [2] [1]).2[0]? = some [] :=
  C7_all_above [[3]] [2] [1] 0 [3] 2 (by rfl) (by norm_num)

/-- Claim C8: for every underperforming purchase whose
`purchase_idx + 12*time_interval` is at or past the end of the series, the
forward walk slice is empty and the walk records a NotRecovered outcome with
extra-time 0, present in the purchase's interval bucket. -/
theorem C8_empty_walk (pidx ap : List ℚ) (ti idx : ℕ) (g : ℚ)
    (grs : List ℚ) (cpi : ℚ)
    (hout : ap.length ≤ idx + 12 * ti)
    (hg : grs[idx]? = some g) (hunder : g < cpi) :
    ap.drop (idx + 12 * ti) = [] ∧
    purchaseOutcome pidx ap ti idx g = Outcome.notRecovered 0 ∧
    Outcome.notRecovered 0 ∈ intervalOutcomes pidx ap ti cpi 0 grs := by
  have hdrop : ap.drop (idx + 12 * ti) = [] := List.drop_eq_nil_of_le hout
  have hpo : purchaseOutcome pidx ap ti idx g = Outcome.notRecovered 0 := by
    rw [purchaseOutcome, hdrop]
    simp [catchUpWalk]
  refine ⟨hdrop, hpo, ?_⟩
  have hmem := purchaseOutcome_mem_intervalOutcomes pidx ap ti cpi grs 0 idx g hg hunder
  rw [Nat.zero_add] at hmem
  rw [hpo] at hmem
  exact hmem

theorem C8_empty_walk_witness :
    ([1] : List ℚ).drop (0 + 12 * 1) = [] ∧
    purchaseOutcome [2] [1] 1 0 (1 / 2) = Outcome.notRecovered 0 ∧
    Outcome.notRecovered 0 ∈ intervalOutcomes [2] [1] 1 2 0 [1 / 2] := by
  apply C8_empty_walk
  · simp
  · rfl
  · norm_num

/-- Claim C9: at each holding-period-length index, every purchase whose ratio
is strictly below the aligned benchmark contributes exactly one outcome, so
the sizes of the Recovered and NotRecovered buckets at that index sum to the
number of ratios strictly below the benchmark; ratios at or above the
benchmark contribute nothing. -/
theorem C9_partition (rot : List (List ℚ)) (pidx ap : List ℚ) (k : ℕ)
    (grs : List ℚ) (cpi : ℚ)
    (hk : (rot.zip pidx)[k]? = some (grs, cpi))
    (_hvalid : grs.length ≤ ap.length) :
    ∃ rb nb,
      (time_to_catch_up_cpi rot pidx ap).1[k]? = some rb ∧
      (time_to_catch_up_cpi rot pidx ap).2[k]? = some nb ∧
      rb.length + nb.length = (grs.filter (fun r => decide (r < cpi))).length := by
  refine ⟨recoveredOf (intervalOutcomes pidx ap (1 + k) cpi 0 grs),
          nonRecoveredOf (intervalOutcomes pidx ap (1 + k) cpi 0 grs), ?_, ?_, ?_⟩
  · rw [time_to_catch_up_cpi, catchUpBuckets_fst_getElem?, hk]
    rfl
  · rw [time_to_catch_up_cpi, catchUpBuckets_snd_getElem?, hk]
    rfl
  · rw [recovered_add_nonRecovered_length, intervalOutcomes_length]

theorem C9_partition_witness :
    ∃ rb nb,
      (time_to_catch_up_cpi [[1, 3]] [2] [1, 1, 1, 1, 1, 1, 1, 1, 1, 1, 1, 1, 10]).1[0]? = some rb ∧
      (time_to_catch_up_cpi [[1, 3]] [2] [1, 1, 1, 1, 1, 1, 1, 1, 1, 1, 1, 1, 10]).2[0]? = some nb ∧
      rb.length + nb.length =
        (([1, 3] : List ℚ).filter (fun r => decide (r < 2))).length :=
  C9_partition [[1, 3]] [2] [1, 1, 1, 1, 1, 1, 1, 1, 1, 1, 1, 1, 10] 0 [1, 3] 2
    (by rfl) (by simp)
